import Mathlib

/-!
Formal model of the TechHunter-colombia scraping core.

The development shallowly embeds the pure extraction logic of
`scraping/stores/alkosto.py`, `scraping/stores/falabella.py` and the
page loops around it.  Browser automation is abstracted as data: a card
is a record of what each DOM query would return, and a page is the
outcome the automation boundary reports for it.  Python floats are
modelled over `ℚ` (plus the special values `inf`/`nan`), which is exact
for every decimal amount the scrapers handle; binary rounding and
overflow of huge literals are outside the model, as are underscore
digit-group separators and non-ASCII digits accepted by CPython.
-/

/-- ASCII digit test: the digit class used by the source's regexes
(codepoints 48–57). -/
def isDigitC (c : Char) : Bool := decide (48 ≤ c.toNat ∧ c.toNat ≤ 57)

/-- Python whitespace class used by `str.strip()` and the regex `\s`:
space, tab, newline, carriage return, vertical tab, form feed. -/
def pyWs (c : Char) : Bool :=
  decide (c.toNat = 32 ∨ c.toNat = 9 ∨ c.toNat = 10 ∨ c.toNat = 13 ∨
          c.toNat = 11 ∨ c.toNat = 12)

/-- ASCII lower-casing, as applied by CPython when recognising the
special float literals. -/
def lowerC (c : Char) : Char :=
  if 65 ≤ c.toNat ∧ c.toNat ≤ 90 then Char.ofNat (c.toNat + 32) else c

/-- Value of a list of ASCII digit characters read in base 10. -/
def digitsToNat (l : List Char) : Nat :=
  l.foldl (fun a c => 10 * a + (c.toNat - 48)) 0

/-- Leading and trailing whitespace removal on character lists
(Python `str.strip()` and the trimming done by `float()`). -/
def trimWs (l : List Char) : List Char :=
  ((l.dropWhile pyWs).reverse.dropWhile pyWs).reverse

/-- Optional sign recognised by `float()`: returns (isNegative, rest). -/
def parseSign (l : List Char) : Bool × List Char :=
  match l with
  | [] => (false, [])
  | c :: r => if c = '-' then (true, r) else if c = '+' then (false, r) else (false, c :: r)

/-- Exponent suffix of a `float()` literal: empty input means exponent 0;
otherwise an `e`/`E`, an optional sign and at least one digit must
consume the whole rest of the string. -/
def parseExpPart (l : List Char) : Option Int :=
  match l with
  | [] => some 0
  | c :: r =>
    if c = 'e' ∨ c = 'E' then
      let sp := parseSign r
      let ds := sp.2.takeWhile isDigitC
      let rest := sp.2.dropWhile isDigitC
      if ds = [] ∨ rest ≠ [] then none
      else some (if sp.1 then -(digitsToNat ds : Int) else (digitsToNat ds : Int))
    else none

/-- Numeric part of a `float()` literal after the optional sign:
integer digits, an optional fraction introduced by one dot (at least one
digit must appear on one of the two sides), and an optional exponent. -/
def parseNumber (neg : Bool) (l : List Char) : Option ℚ :=
  let ip := l.takeWhile isDigitC
  let r1 := l.dropWhile isDigitC
  match r1 with
  | '.' :: r2 =>
    let fp := r2.takeWhile isDigitC
    let r3 := r2.dropWhile isDigitC
    if ip = [] ∧ fp = [] then none
    else (parseExpPart r3).map (fun e =>
      (if neg then (-1 : ℚ) else 1) *
        ((digitsToNat (ip ++ fp) : ℚ) / (10 : ℚ) ^ (fp.length) * (10 : ℚ) ^ e))
  | _ =>
    if ip = [] then none
    else (parseExpPart r1).map (fun e =>
      (if neg then (-1 : ℚ) else 1) * ((digitsToNat ip : ℚ) * (10 : ℚ) ^ e))

/-- Result of Python's `float(str)`: a finite rational, a signed
infinity, or nan. -/
inductive PyFloat where
  | finite (q : ℚ)
  | inf (neg : Bool)
  | nan
deriving DecidableEq

/-- Python's `float(str)` conversion: trim whitespace, read an optional
sign, accept the special literals `inf`, `infinity`, `nan`
(case-insensitively), otherwise parse a decimal literal; `none` models
the `ValueError` raised on any other input. -/
def pyFloatOfChars (l : List Char) : Option PyFloat :=
  let t := trimWs l
  let sp := parseSign t
  let low := sp.2.map lowerC
  if low = "inf".data ∨ low = "infinity".data then some (PyFloat.inf sp.1)
  else if low = "nan".data then some PyFloat.nan
  else (parseNumber sp.1 sp.2).map PyFloat.finite

/-- `float(s)` on a Lean string. -/
def pyFloatOfString (s : String) : Option PyFloat := pyFloatOfChars s.data

/-- Python `str.strip()` with no arguments. -/
def pyStrip (s : String) : String := String.mk (trimWs s.data)

/-- Python truthiness of an optional string: `None` and `""` are falsy,
any other string is truthy. -/
def pyTruthy : Option String → Bool
  | none => false
  | some s => decide (s ≠ "")

/-- Does `float()` recognise this character list as one of the special
literals (`inf`, `infinity`, `nan`, optionally signed)? -/
def specialLit (l : List Char) : Bool :=
  let low := ((parseSign (trimWs l)).2).map lowerC
  decide (low = "inf".data ∨ low = "infinity".data ∨ low = "nan".data)

/-- Python `s.startswith(pre)`. -/
def pyStartsWith (s pre : String) : Bool := pre.data.isPrefixOf s.data

/-- The absolute-URL test the source itself applies
(`product_url.startswith('http')` in falabella.py). -/
def urlSchemeQualified (u : String) : Bool := pyStartsWith u "http"

/-- One product record as assembled by either scraper
(`product_name`, `current_price`, `normal_price`, `product_url` keys of
the Python dict).  falabella.py can leave the url `None` when the link
element has no `href` attribute, hence the `Option`; alkosto.py always
supplies a (possibly empty or relative) string. -/
structure Listing where
  product_name : String
  current_price : Option PyFloat
  normal_price : Option PyFloat
  product_url : Option String
deriving DecidableEq

/-- A link element: its `href` and `title` attributes as
`get_attribute` would report them (`none` = attribute missing). -/
structure LinkEl where
  href : Option String
  title : Option String
deriving DecidableEq

namespace Alkosto

def BASE_URL : String := "https://www.alkosto.com"

/-- Characters kept by `re.sub(r'[$\s.]', '', price_text)`:
everything except `$`, whitespace and `.`. -/
def keepChar (c : Char) : Bool := !(c = '$' || c = '.' || pyWs c)

/-- `clean_price` from alkosto.py: falsy input (`None`/`""`) maps to
`None`; otherwise currency symbol, whitespace and periods are removed
and the rest is passed to `float`, with `ValueError` caught to `None`. -/
def clean_price (price_text : Option String) : Option PyFloat :=
  match price_text with
  | none => none
  | some s => if s = "" then none else pyFloatOfChars (s.data.filter keepChar)

/-- One product card of alkosto.py as the automation boundary answers
the four per-card queries: `inner_text` of the name element, of the two
price elements (present element ↦ `some`), and the link element with
its attributes. -/
structure Card where
  nameEl : Option String
  currentPriceEl : Option String
  normalPriceEl : Option String
  linkEl : Option LinkEl
deriving DecidableEq

/-- The per-card body of `scrape_alkosto` (alkosto.py lines 75–103):
name defaults to the sentinel, both prices go through `clean_price`,
the url is the `href` prefixed with the base when site-relative, and
the dict is appended unconditionally.  `none` models the card being
skipped by the `except` handler, which fires exactly when the link
element exists but has no `href` (`None.startswith` raises). -/
def extract_card (c : Card) : Option Listing :=
  let name := c.nameEl.getD "No disponible"
  let cur := clean_price c.currentPriceEl
  let nor := clean_price c.normalPriceEl
  match c.linkEl with
  | none =>
      some { product_name := name, current_price := cur, normal_price := nor,
             product_url := some "" }
  | some le =>
      match le.href with
      | none => none
      | some h =>
          some { product_name := name, current_price := cur, normal_price := nor,
                 product_url := some (if pyStartsWith h "/" then BASE_URL ++ h else h) }

/-- Outcome of one page of the alkosto pagination loop: either
`page.goto`/`wait_for_selector` raised (navigation or readiness
timeout), or the page loaded and `query_selector_all` returned these
cards. -/
inductive PageOutcome where
  | loadFail
  | cards (cs : List Card)
deriving DecidableEq

/-- Listings contributed by one page: a failed page is skipped
(`continue`), a loaded page contributes every card that survives
`extract_card`. -/
def pageListings : PageOutcome → List Listing
  | .loadFail => []
  | .cards cs => cs.filterMap extract_card

/-- `scrape_alkosto` (alkosto.py lines 59–107) over the sequence of
per-page outcomes the automation boundary produces: pages are processed
in order and their listings concatenated; no deduplication and no
validation happens on the accumulated list. -/
def scrape_alkosto : List PageOutcome → List Listing
  | [] => []
  | p :: rest => pageListings p ++ scrape_alkosto rest

/-- A page outcome that contributes nothing: failed to load, or loaded
with zero cards. -/
def pageEmpty (p : PageOutcome) : Prop :=
  p = PageOutcome.loadFail ∨ p = PageOutcome.cards []

end Alkosto

namespace Falabella

def BASE_URL : String := "https://www.falabella.com.co"

/-- `_clean_price` from falabella.py: `None` or blank input maps to
`None`; otherwise `re.sub(r'[^\d]', '', price_str)` keeps only the
digits and the resulting digit string, when non-empty, is passed to
`float`. -/
def _clean_price (price_str : Option String) : Option PyFloat :=
  match price_str with
  | none => none
  | some s =>
      if pyStrip s = "" then none
      else
        let d := s.data.filter isDigitC
        if d = [] then none else pyFloatOfChars d

/-- The ordered name selector strategy of `_extract_product_data`. -/
def name_selectors : List String :=
  ["b[data-testid=\"name\"]", "[data-testid=\"product-title\"]", ".product-title",
   "h3", "a[title]", ".jsx-2074915182 b"]

/-- The ordered current-price selector strategy. -/
def price_selectors : List String :=
  ["[data-testid=\"price-value\"]", ".price-current", ".jsx-4184467617",
   ".price", ".current-price"]

/-- The ordered reference-price selector strategy. -/
def normal_price_selectors : List String :=
  ["span[data-testid=\"price-original\"]", ".price-original", ".strikethrough",
   ".was-price"]

/-- One falabella product card, as the automation boundary answers the
queries `_extract_product_data` makes against it: the two candidate
link elements, and for each selector of the name / price strategies,
whether an element matches (outer `Option`) and what `text_content()`
returns on it (inner `Option`: Playwright may report `null`). -/
structure Card where
  link1 : Option LinkEl
  link2 : Option LinkEl
  nameQ : String → Option (Option String)
  priceQ : String → Option (Option String)
  normalQ : String → Option (Option String)

/-- The link-element fallback of `_extract_product_data`
(falabella.py lines 45–48): `a[href]` first, the alternative selector
only when it found nothing. -/
def cardLink (c : Card) : Option LinkEl :=
  match c.link1 with
  | some le => some le
  | none => c.link2

/-- The price-selector fallback loop of `_extract_product_data`
(falabella.py lines 94–100 and 110–116): for each selector in order, if
an element matches, its `text_content()` is assigned to the running
variable, and the loop stops at the first truthy text.  The final value
of the variable is returned — note a falsy assignment is kept when all
later selectors match nothing. -/
def resolveLoop (q : String → Option (Option String)) (acc : Option String) :
    List String → Option String
  | [] => acc
  | sel :: rest =>
      match q sel with
      | none => resolveLoop q acc rest
      | some t => if pyTruthy t then t else resolveLoop q t rest

/-- Does this selector yield a truthy text for the card? -/
def selectorHit (q : String → Option (Option String)) (sel : String) : Bool :=
  match q sel with
  | some t => pyTruthy t
  | none => false

/-- The name fallback loop of `_extract_product_data` (falabella.py
lines 69–83): for each selector in order, a matching element whose text
strips to something non-empty wins; additionally, on the `a[title]`
iteration, the link element's `title` attribute wins when truthy (its
stripped form is used, which can be empty).  If nothing wins the
sentinel name is kept. -/
def nameLoop (q : String → Option (Option String)) (title : Option String) :
    List String → String
  | [] => "Nombre no disponible"
  | sel :: rest =>
      let hit : Option String :=
        match q sel with
        | some (some t) => if pyStrip t ≠ "" then some (pyStrip t) else none
        | _ => none
      match hit with
      | some n => n
      | none =>
          match (if sel = "a[title]" then title else none) with
          | some a => if a ≠ "" then pyStrip a else nameLoop q title rest
          | none => nameLoop q title rest

/-- Resolved name of a card (sentinel when nothing matched). -/
def cardName (c : Card) : String :=
  nameLoop c.nameQ ((cardLink c).bind LinkEl.title) name_selectors

/-- Raw current-price text of a card. -/
def cardCur (c : Card) : Option String :=
  resolveLoop c.priceQ none price_selectors

/-- Raw reference-price text of a card. -/
def cardNor (c : Card) : Option String :=
  resolveLoop c.normalQ none normal_price_selectors

/-- Canonical url of a link element (falabella.py lines 54–56): a truthy
`href` not starting with `http` is prefixed with the base origin; a
missing `href` attribute leaves the url `None`. -/
def cardUrl (le : LinkEl) : Option String :=
  match le.href with
  | none => none
  | some u => if u ≠ "" ∧ ¬ pyStartsWith u "http" then some (BASE_URL ++ u) else some u

/-- `_extract_product_data` (falabella.py lines 38–134): `None` when no
link element is found; otherwise the candidate dict is built from the
resolved fields and returned only when the name is not the sentinel and
at least one of the two RAW price strings is truthy — the check looks
at the raw texts, not at the `_clean_price` results. -/
def _extract_product_data (c : Card) : Option Listing :=
  match cardLink c with
  | none => none
  | some le =>
      if cardName c ≠ "Nombre no disponible" ∧
         (pyTruthy (cardCur c) = true ∨ pyTruthy (cardNor c) = true) then
        some { product_name := cardName c,
               current_price := _clean_price (cardCur c),
               normal_price := _clean_price (cardNor c),
               product_url := cardUrl le }
      else none

/-- Outcome of one page of the falabella pagination loop: `navFail`
when `page.goto` raised (caught by the outer handler, `continue`);
otherwise the page loaded, `containerFound` records whether any of the
container readiness waits succeeded, `altNavFail` whether the
alternative-URL navigation (attempted only on page 1 when no container
was found) raised, and `cards` what the card query finally returned. -/
inductive PageOutcome where
  | navFail
  | loaded (containerFound : Bool) (altNavFail : Bool) (cards : List Card)

/-- Listings contributed by one falabella page (falabella.py lines
160–246).  A navigation failure skips the page; a readiness
(container-wait) failure does NOT skip it — on page 1 the alternative
URL is tried (whose own navigation failure aborts the page via the
outer handler) and in every case the card query still runs and every
card surviving `_extract_product_data` is appended. -/
def pageListings (isFirst : Bool) : PageOutcome → List Listing
  | .navFail => []
  | .loaded containerFound altNavFail cards =>
      if !containerFound && isFirst && altNavFail then []
      else cards.filterMap _extract_product_data

/-- The falabella page loop from page number `n` on: pages are
processed strictly in order, each contributing its listings. -/
def scrapeFrom (n : Nat) : List PageOutcome → List Listing
  | [] => []
  | p :: rest => pageListings (n == 1) p ++ scrapeFrom (n + 1) rest

/-- `scrape_falabella` over the sequence of per-page outcomes: the page
counter starts at 1 (only page 1 tries the alternative URL). -/
def scrape_falabella (pages : List PageOutcome) : List Listing :=
  scrapeFrom 1 pages

/-- A page outcome that is skipped or has no cards. -/
def pageEmpty (p : PageOutcome) : Prop :=
  p = PageOutcome.navFail ∨ ∃ cf anf, p = PageOutcome.loaded cf anf []

end Falabella

/-! ### Helper lemmas about list scanning -/

theorem takeWhile_all {p : Char → Bool} :
    ∀ {l : List Char}, (∀ a ∈ l, p a = true) → l.takeWhile p = l
  | [], _ => rfl
  | c :: r, h => by
      simp only [List.takeWhile_cons, h c (List.mem_cons_self c r), if_true]
      exact congrArg (c :: ·) (takeWhile_all fun a ha => h a (List.mem_cons_of_mem c ha))

theorem dropWhile_nil_all {p : Char → Bool} :
    ∀ {l : List Char}, (∀ a ∈ l, p a = true) → l.dropWhile p = []
  | [], _ => rfl
  | c :: r, h => by
      simp only [List.dropWhile_cons, h c (List.mem_cons_self c r), if_true]
      exact dropWhile_nil_all fun a ha => h a (List.mem_cons_of_mem c ha)

theorem takeWhile_nil_all_false {p : Char → Bool} :
    ∀ {l : List Char}, (∀ a ∈ l, p a = false) → l.takeWhile p = []
  | [], _ => rfl
  | c :: r, h => by
      simp only [List.takeWhile_cons, h c (List.mem_cons_self c r)]
      exact rfl

theorem dropWhile_all_false {p : Char → Bool} :
    ∀ {l : List Char}, (∀ a ∈ l, p a = false) → l.dropWhile p = l
  | [], _ => rfl
  | c :: r, h => by
      simp only [List.dropWhile_cons, h c (List.mem_cons_self c r)]
      exact rfl

theorem mem_of_mem_dropWhile {p : Char → Bool} {a : Char} :
    ∀ {l : List Char}, a ∈ l.dropWhile p → a ∈ l
  | [], h => h
  | c :: r, h => by
      by_cases hc : p c
      · simp only [List.dropWhile_cons, hc, if_true] at h
        exact List.mem_cons_of_mem c (mem_of_mem_dropWhile h)
      · simpa only [List.dropWhile_cons, hc, if_false] using h

theorem pred_of_mem_takeWhile {p : Char → Bool} {a : Char} :
    ∀ {l : List Char}, a ∈ l.takeWhile p → p a = true
  | [], h => by simp at h
  | c :: r, h => by
      by_cases hc : p c
      · simp only [List.takeWhile_cons, hc, if_true, List.mem_cons] at h
        rcases h with rfl | h
        · exact hc
        · exact pred_of_mem_takeWhile h
      · simp [List.takeWhile_cons, hc] at h

theorem mem_dropWhile_of {p : Char → Bool} {a : Char} (ha : p a = false) :
    ∀ {l : List Char}, a ∈ l → a ∈ l.dropWhile p
  | c :: r, h => by
      by_cases hc : p c
      · simp only [List.dropWhile_cons, hc, if_true]
        rcases List.mem_cons.mp h with rfl | h
        · rw [hc] at ha; cases ha
        · exact mem_dropWhile_of ha h
      · simpa only [List.dropWhile_cons, hc, if_false] using h

/-! ### Character-class facts -/

theorem digit_not_ws {c : Char} (h : isDigitC c = true) : pyWs c = false := by
  simp only [isDigitC, decide_eq_true_eq] at h
  simp only [pyWs, decide_eq_false_iff_not]
  omega

theorem digit_lower {c : Char} (h : isDigitC c = true) : lowerC c = c := by
  simp only [isDigitC, decide_eq_true_eq] at h
  unfold lowerC
  rw [if_neg]
  omega

theorem digit_ne {c d : Char} (h : isDigitC c = true)
    (hd : d.toNat < 48 ∨ 57 < d.toNat) : c ≠ d := by
  simp only [isDigitC, decide_eq_true_eq] at h
  intro hcd
  subst hcd
  omega

/-! ### Facts about the pieces of the float parser -/

theorem trimWs_of_no_ws {l : List Char} (h : ∀ a ∈ l, pyWs a = false) :
    trimWs l = l := by
  unfold trimWs
  rw [dropWhile_all_false h, dropWhile_all_false, List.reverse_reverse]
  intro a ha
  exact h a (List.mem_reverse.mp ha)

theorem mem_of_mem_trimWs {l : List Char} {a : Char} (h : a ∈ trimWs l) : a ∈ l := by
  unfold trimWs at h
  rw [List.mem_reverse] at h
  exact mem_of_mem_dropWhile (List.mem_reverse.mp (mem_of_mem_dropWhile h))

theorem mem_trimWs_of {l : List Char} {a : Char} (hw : pyWs a = false) (h : a ∈ l) :
    a ∈ trimWs l := by
  unfold trimWs
  rw [List.mem_reverse]
  exact mem_dropWhile_of hw (List.mem_reverse.mpr (mem_dropWhile_of hw h))

theorem parseSign_cons_of {c : Char} {r : List Char} (h1 : c ≠ '-') (h2 : c ≠ '+') :
    parseSign (c :: r) = (false, c :: r) := by
  simp only [parseSign]
  rw [if_neg h1, if_neg h2]

theorem parseSign_neg_eq (r : List Char) : parseSign ('-' :: r) = (true, r) := rfl

theorem parseSign_pos_eq (r : List Char) : parseSign ('+' :: r) = (false, r) := rfl

theorem mem_of_mem_parseSign_snd {l : List Char} {a : Char}
    (h : a ∈ (parseSign l).2) : a ∈ l := by
  match l with
  | [] => exact h
  | c :: r =>
      by_cases hc : c = '-'
      · subst hc; rw [parseSign_neg_eq] at h; exact List.mem_cons_of_mem _ h
      · by_cases hc2 : c = '+'
        · subst hc2; rw [parseSign_pos_eq] at h; exact List.mem_cons_of_mem _ h
        · rwa [parseSign_cons_of hc hc2] at h

theorem mem_parseSign_snd_of {l : List Char} {a : Char}
    (h1 : a ≠ '-') (h2 : a ≠ '+') (h : a ∈ l) : a ∈ (parseSign l).2 := by
  match l with
  | [] => simp at h
  | c :: r =>
      by_cases hc : c = '-'
      · subst hc; rw [parseSign_neg_eq]
        rcases List.mem_cons.mp h with rfl | hr
        · exact absurd rfl h1
        · exact hr
      · by_cases hc2 : c = '+'
        · subst hc2; rw [parseSign_pos_eq]
          rcases List.mem_cons.mp h with rfl | hr
          · exact absurd rfl h2
          · exact hr
        · rw [parseSign_cons_of hc hc2]
          exact h

theorem map_lower_digits {l : List Char} (hd : ∀ c ∈ l, isDigitC c = true) :
    l.map lowerC = l := by
  rw [List.map_congr_left (fun a ha => digit_lower (hd a ha))]
  exact List.map_id l

theorem digits_ne_special {l : List Char} (hd : ∀ c ∈ l, isDigitC c = true)
    {s : List Char} {w : Char} (hw : w ∈ s) (hwd : isDigitC w = false) : l ≠ s := by
  intro h
  subst h
  rw [hd w hw] at hwd
  cases hwd

/-- The central evaluation fact: `float` of a non-empty pure digit
string is the finite value of those digits read in base 10. -/
theorem pyFloat_digits {l : List Char} (hne : l ≠ [])
    (hd : ∀ c ∈ l, isDigitC c = true) :
    pyFloatOfChars l = some (PyFloat.finite (digitsToNat l)) := by
  obtain ⟨c, r, rfl⟩ : ∃ c r, l = c :: r := by
    cases l with
    | nil => exact absurd rfl hne
    | cons c r => exact ⟨c, r, rfl⟩
  have hc0 := hd c (List.mem_cons_self c r)
  have htrim : trimWs (c :: r) = c :: r :=
    trimWs_of_no_ws fun a ha => digit_not_ws (hd a ha)
  have hsign : parseSign (c :: r) = (false, c :: r) :=
    parseSign_cons_of (digit_ne hc0 (by decide)) (digit_ne hc0 (by decide))
  have hnum : parseNumber false (c :: r) = some ((digitsToNat (c :: r) : ℚ)) := by
    simp only [parseNumber]
    rw [takeWhile_all hd, dropWhile_nil_all hd]
    rw [if_neg hne]
    simp only [parseExpPart, Option.map_some']
    norm_num
  simp only [pyFloatOfChars]
  rw [htrim, hsign]
  simp only []
  rw [map_lower_digits hd]
  rw [if_neg, if_neg (digits_ne_special hd (show 'n' ∈ "nan".data by decide) (by decide))]
  · rw [hnum]; rfl
  · rintro (h | h)
    · exact digits_ne_special hd (show 'i' ∈ "inf".data by decide) (by decide) h
    · exact digits_ne_special hd (show 'i' ∈ "infinity".data by decide) (by decide) h

theorem parseExpPart_comma {l : List Char} (hc : ',' ∈ l) : parseExpPart l = none := by
  match l with
  | [] => simp at hc
  | c :: r =>
    simp only [parseExpPart]
    by_cases he : c = 'e' ∨ c = 'E'
    · rw [if_pos he]
      rw [if_pos]
      right
      intro hrest
      have h1 : ',' ∈ r := by
        rcases List.mem_cons.mp hc with h | h
        · rcases he with he | he <;> (rw [he] at h; exact absurd h (by decide))
        · exact h
      have h2 : ',' ∈ (parseSign r).2 := mem_parseSign_snd_of (by decide) (by decide) h1
      have h3 : ',' ∈ (parseSign r).2.dropWhile isDigitC := mem_dropWhile_of (by decide) h2
      rw [hrest] at h3
      simp at h3
    · rw [if_neg he]

theorem parseNumber_comma {neg : Bool} {l : List Char} (hc : ',' ∈ l) :
    parseNumber neg l = none := by
  have hip : ',' ∉ l.takeWhile isDigitC := fun h => by
    have := pred_of_mem_takeWhile h
    exact absurd this (by decide)
  have hr1 : ',' ∈ l.dropWhile isDigitC := by
    have := List.takeWhile_append_dropWhile (p := isDigitC) (l := l)
    rw [← this] at hc
    rcases List.mem_append.mp hc with h | h
    · exact absurd h hip
    · exact h
  simp only [parseNumber]
  split
  · rename_i r2 heq
    rw [heq] at hr1
    have h2 : ',' ∈ r2 := by
      rcases List.mem_cons.mp hr1 with h | h
      · exact absurd h.symm (by decide)
      · exact h
    have h3 : ',' ∈ r2.dropWhile isDigitC := by
      have := List.takeWhile_append_dropWhile (p := isDigitC) (l := r2)
      rw [← this] at h2
      rcases List.mem_append.mp h2 with h | h
      · exact absurd (pred_of_mem_takeWhile h) (by decide)
      · exact h
    rw [parseExpPart_comma h3]
    split
    · rfl
    · rfl
  · rw [parseExpPart_comma hr1]
    split
    · rfl
    · rfl

theorem pyFloat_comma {l : List Char} (hc : ',' ∈ l) : pyFloatOfChars l = none := by
  have h1 : ',' ∈ trimWs l := mem_trimWs_of (by decide) hc
  have h2 : ',' ∈ (parseSign (trimWs l)).2 := mem_parseSign_snd_of (by decide) (by decide) h1
  have hmap : ∀ s : List Char, ',' ∉ s → (parseSign (trimWs l)).2.map lowerC ≠ s := by
    intro s hns h
    have hm : lowerC ',' ∈ (parseSign (trimWs l)).2.map lowerC := List.mem_map_of_mem lowerC h2
    rw [h] at hm
    have : lowerC ',' = ',' := by decide
    rw [this] at hm
    exact hns hm
  simp only [pyFloatOfChars]
  rw [if_neg, if_neg (hmap _ (by decide))]
  · rw [parseNumber_comma h2]; rfl
  · rintro (h | h)
    · exact hmap _ (by decide) h
    · exact hmap _ (by decide) h

theorem parseNumber_no_digit {neg : Bool} {l : List Char}
    (hd : ∀ c ∈ l, isDigitC c = false) : parseNumber neg l = none := by
  have hip : l.takeWhile isDigitC = [] := takeWhile_nil_all_false hd
  have hr1 : l.dropWhile isDigitC = l := dropWhile_all_false hd
  simp only [parseNumber]
  split
  · rename_i r2 heq
    rw [hip]
    have hr2 : ∀ c ∈ r2, isDigitC c = false := by
      intro c hcm
      exact hd c (by rw [hr1] at heq; rw [heq]; exact List.mem_cons_of_mem _ hcm)
    rw [if_pos ⟨rfl, takeWhile_nil_all_false hr2⟩]
  · rw [if_pos hip]

theorem pyFloat_no_digit {l : List Char} (hd : ∀ c ∈ l, isDigitC c = false)
    (hs : specialLit l = false) : pyFloatOfChars l = none := by
  simp only [specialLit, decide_eq_false_iff_not] at hs
  push_neg at hs
  obtain ⟨hs1, hs2, hs3⟩ := hs
  have hsub : ∀ c ∈ (parseSign (trimWs l)).2, isDigitC c = false :=
    fun c hcm => hd c (mem_of_mem_trimWs (mem_of_mem_parseSign_snd hcm))
  simp only [pyFloatOfChars]
  rw [if_neg (by rintro (h | h); exacts [hs1 h, hs2 h]), if_neg hs3]
  rw [parseNumber_no_digit hsub]
  rfl

/-! ### Evaluation facts about the two price cleaners -/

theorem digit_keepChar {c : Char} (h : isDigitC c = true) : Alkosto.keepChar c = true := by
  simp only [Alkosto.keepChar, Bool.not_eq_true']
  simp only [Bool.or_eq_false_iff]
  refine ⟨⟨?_, ?_⟩, digit_not_ws h⟩
  · exact decide_eq_false (digit_ne h (by decide))
  · exact decide_eq_false (digit_ne h (by decide))

theorem string_ne_empty_of_data {s : String} (h : s.data ≠ []) : s ≠ "" := by
  intro hs
  rw [hs] at h
  exact h rfl

/-- `clean_price` on a non-empty pure digit string returns its value. -/
theorem clean_price_digits {s : String} (hne : s.data ≠ [])
    (hd : ∀ c ∈ s.data, isDigitC c = true) :
    Alkosto.clean_price (some s) = some (PyFloat.finite (digitsToNat s.data)) := by
  simp only [Alkosto.clean_price]
  rw [if_neg (string_ne_empty_of_data hne)]
  rw [List.filter_eq_self.mpr fun a ha => digit_keepChar (hd a ha)]
  exact pyFloat_digits hne hd

/-- `_clean_price` on a non-empty pure digit string returns its value. -/
theorem _clean_price_digits {s : String} (hne : s.data ≠ [])
    (hd : ∀ c ∈ s.data, isDigitC c = true) :
    Falabella._clean_price (some s) = some (PyFloat.finite (digitsToNat s.data)) := by
  simp only [Falabella._clean_price]
  rw [if_neg]
  · rw [List.filter_eq_self.mpr hd]
    rw [if_neg hne]
    exact pyFloat_digits hne hd
  · simp only [pyStrip]
    rw [trimWs_of_no_ws fun a ha => digit_not_ws (hd a ha)]
    intro h
    exact hne (by simpa using congrArg String.data h)

/-- A comma survives the alkosto stripping and defeats `float`, so any
comma-containing price text maps to `None` under `clean_price`. -/
theorem clean_price_comma {s : String} (hc : ',' ∈ s.data) :
    Alkosto.clean_price (some s) = none := by
  simp only [Alkosto.clean_price]
  rw [if_neg (string_ne_empty_of_data (fun h => by rw [h] at hc; simp at hc))]
  exact pyFloat_comma (List.mem_filter.mpr ⟨hc, by decide⟩)

/-- `_clean_price` never looks at separators: it agrees with itself on
the digit subsequence of the input. -/
theorem _clean_price_filter (s : String) (hne : pyStrip s ≠ "") :
    Falabella._clean_price (some s) =
      Falabella._clean_price (some (String.mk (s.data.filter isDigitC))) := by
  simp only [Falabella._clean_price]
  rw [if_neg hne]
  by_cases hd : s.data.filter isDigitC = []
  · rw [if_pos hd, hd]
    rfl
  · rw [if_neg hd]
    have hdd : ∀ c ∈ s.data.filter isDigitC, isDigitC c = true :=
      fun c hc => List.of_mem_filter hc
    have hfil : (String.mk (s.data.filter isDigitC)).data.filter isDigitC =
        s.data.filter isDigitC := by
      show (s.data.filter isDigitC).filter isDigitC = _
      exact List.filter_eq_self.mpr hdd
    have hstrip : pyStrip (String.mk (s.data.filter isDigitC)) ≠ "" := by
      simp only [pyStrip]
      show String.mk (trimWs (s.data.filter isDigitC)) ≠ ""
      rw [trimWs_of_no_ws fun a ha => digit_not_ws (hdd a ha)]
      intro h
      exact hd (by simpa using congrArg String.data h)
    rw [if_neg hstrip, hfil, if_neg hd]

/-- `_clean_price` is `None` on every digit-free string. -/
theorem _clean_price_no_digit {s : String} (hd : ∀ c ∈ s.data, isDigitC c = false) :
    Falabella._clean_price (some s) = none := by
  simp only [Falabella._clean_price]
  by_cases hb : pyStrip s = ""
  · rw [if_pos hb]
  · rw [if_neg hb]
    rw [if_pos (List.filter_eq_nil_iff.mpr fun a ha => by rw [hd a ha]; exact Bool.false_ne_true)]

/-- `clean_price` is `None` on every digit-free string whose stripped
form is not one of the special `float` literals. -/
theorem clean_price_no_digit {s : String} (hd : ∀ c ∈ s.data, isDigitC c = false)
    (hs : specialLit (s.data.filter Alkosto.keepChar) = false) :
    Alkosto.clean_price (some s) = none := by
  simp only [Alkosto.clean_price]
  by_cases hb : s = ""
  · rw [if_pos hb]
  · rw [if_neg hb]
    exact pyFloat_no_digit (fun c hc => hd c (List.mem_of_mem_filter hc)) hs

/-- `clean_price` is `None` on blank (all-whitespace, possibly empty)
input. -/
theorem clean_price_blank {s : String} (hw : ∀ c ∈ s.data, pyWs c = true) :
    Alkosto.clean_price (some s) = none := by
  simp only [Alkosto.clean_price]
  by_cases hb : s = ""
  · rw [if_pos hb]
  · rw [if_neg hb]
    rw [List.filter_eq_nil_iff.mpr fun a ha => by
      simp only [Alkosto.keepChar, hw a ha, Bool.or_true, Bool.not_true]
      exact Bool.false_ne_true]
    decide

/-- `_clean_price` is `None` on blank (all-whitespace, possibly empty)
input. -/
theorem _clean_price_blank {s : String} (hw : ∀ c ∈ s.data, pyWs c = true) :
    Falabella._clean_price (some s) = none := by
  simp only [Falabella._clean_price]
  rw [if_pos]
  simp only [pyStrip, trimWs]
  rw [dropWhile_nil_all hw]
  rfl

/-! ### Facts about the fallback resolver and the extractor -/

theorem resolveLoop_no_hit {q : String → Option (Option String)} :
    ∀ {sels : List String}, (∀ s ∈ sels, Falabella.selectorHit q s = false) →
    ∀ {acc : Option String}, pyTruthy acc = false →
    pyTruthy (Falabella.resolveLoop q acc sels) = false
  | [], _, _, hacc => hacc
  | sel :: rest, h, acc, hacc => by
      have hsel := h sel (List.mem_cons_self sel rest)
      rcases hqs : q sel with _ | t
      · simp only [Falabella.resolveLoop, hqs]
        exact resolveLoop_no_hit (fun s hs => h s (List.mem_cons_of_mem _ hs)) hacc
      · have ht : pyTruthy t = false := by
          simpa only [Falabella.selectorHit, hqs] using hsel
        simp only [Falabella.resolveLoop, hqs, ht, Bool.false_eq_true, if_false]
        exact resolveLoop_no_hit (fun s hs => h s (List.mem_cons_of_mem _ hs)) ht

theorem resolveLoop_first_hit {q : String → Option (Option String)} {sel : String}
    {t : Option String} (hq : q sel = some t) (ht : pyTruthy t = true) :
    ∀ {pre : List String}, (∀ s ∈ pre, Falabella.selectorHit q s = false) →
    ∀ (post : List String) (acc : Option String),
    Falabella.resolveLoop q acc (pre ++ sel :: post) = t
  | [], _, post, acc => by
      simp only [List.nil_append, Falabella.resolveLoop, hq, ht, if_true]
  | s :: pre, h, post, acc => by
      have hs := h s (List.mem_cons_self s pre)
      rcases hqs : q s with _ | u
      · simp only [List.cons_append, Falabella.resolveLoop, hqs]
        exact resolveLoop_first_hit hq ht (fun x hx => h x (List.mem_cons_of_mem _ hx)) post acc
      · have hu : pyTruthy u = false := by
          simpa only [Falabella.selectorHit, hqs] using hs
        simp only [List.cons_append, Falabella.resolveLoop, hqs, hu, Bool.false_eq_true, if_false]
        exact resolveLoop_first_hit hq ht (fun x hx => h x (List.mem_cons_of_mem _ hx)) post u

/-- Characterisation of when `_extract_product_data` discards a card:
exactly when no link element is found, or the resolved name is the
sentinel, or both raw price texts are falsy. -/
theorem extract_none_iff (c : Falabella.Card) :
    Falabella._extract_product_data c = none ↔
      (Falabella.cardLink c = none ∨
       Falabella.cardName c = "Nombre no disponible" ∨
       (pyTruthy (Falabella.cardCur c) = false ∧ pyTruthy (Falabella.cardNor c) = false)) := by
  unfold Falabella._extract_product_data
  rcases hl : Falabella.cardLink c with _ | le
  · simp [hl]
  · simp only [hl]
    by_cases hcond : Falabella.cardName c ≠ "Nombre no disponible" ∧
        (pyTruthy (Falabella.cardCur c) = true ∨ pyTruthy (Falabella.cardNor c) = true)
    · rw [if_pos hcond]
      constructor
      · intro h
        exact Option.noConfusion h
      · rintro (h | hname | ⟨h1, h2⟩)
        · exact Option.noConfusion h
        · exact absurd hname hcond.1
        · rcases hcond.2 with hx | hx
          · rw [h1] at hx
            exact Bool.noConfusion hx
          · rw [h2] at hx
            exact Bool.noConfusion hx
    · rw [if_neg hcond]
      constructor
      · intro _
        by_cases hname : Falabella.cardName c = "Nombre no disponible"
        · exact Or.inr (Or.inl hname)
        · have hnq : ¬(pyTruthy (Falabella.cardCur c) = true ∨
              pyTruthy (Falabella.cardNor c) = true) := fun hq => hcond ⟨hname, hq⟩
          refine Or.inr (Or.inr ⟨?_, ?_⟩)
          · cases hb : pyTruthy (Falabella.cardCur c)
            · rfl
            · exact absurd (Or.inl hb) hnq
          · cases hb : pyTruthy (Falabella.cardNor c)
            · rfl
            · exact absurd (Or.inr hb) hnq
      · intro _
        rfl

theorem filterMap_skip {α β : Type} (f : α → Option β) (pre post : List α) (c : α)
    (h : f c = none) :
    (pre ++ c :: post).filterMap f = (pre ++ post).filterMap f := by
  rw [List.filterMap_append, List.filterMap_append, List.filterMap_cons, h]

/-! ### Concrete-evaluation helpers for the cleaners -/

theorem clean_price_concrete {s : String} {d : List Char}
    (hs : s ≠ "") (hf : s.data.filter Alkosto.keepChar = d) (hne : d ≠ [])
    (hd : ∀ c ∈ d, isDigitC c = true) {q : ℚ} (hn : (digitsToNat d : ℚ) = q) :
    Alkosto.clean_price (some s) = some (PyFloat.finite q) := by
  simp only [Alkosto.clean_price]
  rw [if_neg hs, hf, pyFloat_digits hne hd, hn]

theorem _clean_price_concrete {s : String} {d : List Char}
    (hs : pyStrip s ≠ "") (hf : s.data.filter isDigitC = d) (hne : d ≠ [])
    (hd : ∀ c ∈ d, isDigitC c = true) {q : ℚ} (hn : (digitsToNat d : ℚ) = q) :
    Falabella._clean_price (some s) = some (PyFloat.finite q) := by
  simp only [Falabella._clean_price]
  rw [if_neg hs, hf, if_neg hne, pyFloat_digits hne hd, hn]

/-! ### The claims -/

/-- C3, counterexample: on `"1.234.567,89"` neither normalizer treats
the later separator as the decimal point.  alkosto's `clean_price`
returns `None` (the comma survives the stripping and `float` rejects
it) and falabella's `_clean_price` returns `123456789` (every non-digit
is removed), not `1234567.89`. -/
theorem claim3_counterexample :
    Alkosto.clean_price (some "1.234.567,89") = none ∧
    Falabella._clean_price (some "1.234.567,89") = some (PyFloat.finite 123456789) ∧
    PyFloat.finite (123456789 : ℚ) ≠ PyFloat.finite (1234567.89 : ℚ) := by
  refine ⟨clean_price_comma (by decide), ?_, ?_⟩
  · refine _clean_price_concrete (d := "123456789".data) (by decide) (by decide)
      (by decide) (by decide) ?_
    norm_num [show digitsToNat "123456789".data = 123456789 from by decide]
  · intro h
    rw [PyFloat.finite.injEq] at h
    norm_num at h

/-- C3, amended: on a price string containing both `,` and `.` the code
does not disambiguate separators by position.  alkosto's `clean_price`
returns `None` for every comma-containing string, and falabella's
`_clean_price` is separator-blind: it returns exactly what it returns
on the digit subsequence of the input (all digits concatenated into one
integer amount); in particular `"1.234.567,89"` yields `None` and
`123456789` respectively, not `1234567.89`. -/
theorem claim3_amended (s : String) (hc : ',' ∈ s.data) (_hdot : '.' ∈ s.data) :
    Alkosto.clean_price (some s) = none ∧
    Falabella._clean_price (some s) =
      Falabella._clean_price (some (String.mk (s.data.filter isDigitC))) := by
  refine ⟨clean_price_comma hc, _clean_price_filter s ?_⟩
  intro h
  have hm : ',' ∈ trimWs s.data := mem_trimWs_of (by decide) hc
  have hdata : trimWs s.data = [] := by simpa using congrArg String.data h
  rw [hdata] at hm
  simp at hm

theorem claim3_amended_witness :
    Alkosto.clean_price (some "1.234.567,89") = none ∧
    Falabella._clean_price (some "1.234.567,89") =
      Falabella._clean_price (some (String.mk ("1.234.567,89".data.filter isDigitC))) :=
  claim3_amended "1.234.567,89" (by decide) (by decide)

/-- C6: on a price string made of digits, `.` separators, the `$`
currency symbol and spaces (with at least one digit), both normalizers
remove the symbol and all periods and parse the remaining digit string
as an integer amount; in particular `normalize("$1.299.900") = 1299900`
(see the witness). -/
theorem claim6_dot_separators (s : String)
    (hchars : ∀ c ∈ s.data, isDigitC c = true ∨ c = '.' ∨ c = '$' ∨ c = ' ')
    (hdig : ∃ c ∈ s.data, isDigitC c = true) :
    Alkosto.clean_price (some s) =
      some (PyFloat.finite (digitsToNat (s.data.filter isDigitC))) ∧
    Falabella._clean_price (some s) =
      some (PyFloat.finite (digitsToNat (s.data.filter isDigitC))) := by
  obtain ⟨d, hdm, hdd⟩ := hdig
  have hfil_ne : s.data.filter isDigitC ≠ [] := by
    intro h
    have : d ∈ s.data.filter isDigitC := List.mem_filter.mpr ⟨hdm, hdd⟩
    rw [h] at this
    simp at this
  have hfil_digits : ∀ c ∈ s.data.filter isDigitC, isDigitC c = true :=
    fun c h => List.of_mem_filter h
  constructor
  · have hagree : ∀ c ∈ s.data, Alkosto.keepChar c = isDigitC c := by
      intro c hcm
      rcases hchars c hcm with h | h | h | h
      · rw [digit_keepChar h, h]
      · subst h; decide
      · subst h; decide
      · subst h; decide
    simp only [Alkosto.clean_price]
    rw [if_neg (string_ne_empty_of_data (List.ne_nil_of_mem hdm))]
    rw [List.filter_congr hagree]
    exact pyFloat_digits hfil_ne hfil_digits
  · simp only [Falabella._clean_price]
    rw [if_neg, if_neg hfil_ne]
    · exact pyFloat_digits hfil_ne hfil_digits
    · intro h
      have hm : d ∈ trimWs s.data := mem_trimWs_of (digit_not_ws hdd) hdm
      have hdata : trimWs s.data = [] := by simpa using congrArg String.data h
      rw [hdata] at hm
      simp at hm

theorem claim6_witness :
    Alkosto.clean_price (some "$1.299.900") = some (PyFloat.finite 1299900) ∧
    Falabella._clean_price (some "$1.299.900") = some (PyFloat.finite 1299900) := by
  have h := claim6_dot_separators "$1.299.900" (by decide) ⟨'1', by decide, by decide⟩
  rw [show digitsToNat ("$1.299.900".data.filter isDigitC) = 1299900 from by decide] at h
  exact_mod_cast h

/-- C7, counterexample: `"inf"` is a digit-free price string on which
alkosto's `clean_price` does not return `None`: the stripped text spells
a special `float` literal and parses to infinity. -/
theorem claim7_counterexample :
    Alkosto.clean_price (some "inf") = some (PyFloat.inf false) ∧
    (∀ c ∈ "inf".data, isDigitC c = false) ∧
    Alkosto.clean_price (some "inf") ≠ none := by
  refine ⟨by decide, by decide, by decide⟩

/-- C7, amended: both normalizers return `None` on absent and on blank
input, and on malformed (digit-free) input they return `None` rather
than raising — for `clean_price` with the exception of digit-free
strings whose stripped form spells a `float` special literal
(`inf`/`infinity`/`nan`, optionally signed), which parse to non-finite
values; `_clean_price` returns `None` on every digit-free string. -/
theorem claim7_amended :
    (Alkosto.clean_price none = none ∧ Falabella._clean_price none = none) ∧
    (∀ s : String, (∀ c ∈ s.data, pyWs c = true) →
      Alkosto.clean_price (some s) = none ∧ Falabella._clean_price (some s) = none) ∧
    (∀ s : String, (∀ c ∈ s.data, isDigitC c = false) →
      Falabella._clean_price (some s) = none) ∧
    (∀ s : String, (∀ c ∈ s.data, isDigitC c = false) →
      specialLit (s.data.filter Alkosto.keepChar) = false →
      Alkosto.clean_price (some s) = none) :=
  ⟨⟨rfl, rfl⟩, fun _ hw => ⟨clean_price_blank hw, _clean_price_blank hw⟩,
   fun _ hd => _clean_price_no_digit hd, fun _ hd hs => clean_price_no_digit hd hs⟩

theorem claim7_amended_witness :
    (Alkosto.clean_price (some "   ") = none ∧
     Falabella._clean_price (some "   ") = none) ∧
    Falabella._clean_price (some "No disponible") = none ∧
    Alkosto.clean_price (some "No disponible") = none :=
  ⟨claim7_amended.2.1 "   " (by decide),
   claim7_amended.2.2.1 "No disponible" (by decide),
   claim7_amended.2.2.2 "No disponible" (by decide) (by decide)⟩

/-- C8, counterexample: re-normalizing the canonical decimal string of
an output is not idempotent.  `clean_price("$1.299.900") = 1299900.0`,
whose canonical decimal rendering (per the glossary, a decimal number
with a single decimal point) is `"1299900.0"`; both normalizers map
that string to `12999000` — the decimal point is stripped with the
other periods / non-digits and the digits are concatenated. -/
theorem claim8_counterexample :
    Alkosto.clean_price (some "$1.299.900") = some (PyFloat.finite 1299900) ∧
    Alkosto.clean_price (some "1299900.0") = some (PyFloat.finite 12999000) ∧
    Falabella._clean_price (some "1299900.0") = some (PyFloat.finite 12999000) ∧
    (12999000 : ℚ) ≠ (1299900 : ℚ) := by
  refine ⟨?_, ?_, ?_, by norm_num⟩
  · refine clean_price_concrete (d := "1299900".data) (by decide) (by decide)
      (by decide) (by decide) ?_
    norm_num [show digitsToNat "1299900".data = 1299900 from by decide]
  · refine clean_price_concrete (d := "12999000".data) (by decide) (by decide)
      (by decide) (by decide) ?_
    norm_num [show digitsToNat "12999000".data = 12999000 from by decide]
  · refine _clean_price_concrete (d := "12999000".data) (by decide) (by decide)
      (by decide) (by decide) ?_
    norm_num [show digitsToNat "12999000".data = 12999000 from by decide]

/-- C8, amended: idempotence holds exactly for outputs rendered as bare
digit strings: on every non-empty pure digit string (the point-free
decimal rendering of any integer output) both normalizers return the
number that string denotes, so re-normalizing such a rendering of an
output yields the output back; renderings that carry a decimal point
re-normalize to a different value (see the counterexample). -/
theorem claim8_amended (s : String) (hne : s.data ≠ [])
    (hd : ∀ c ∈ s.data, isDigitC c = true) :
    Alkosto.clean_price (some s) = some (PyFloat.finite (digitsToNat s.data)) ∧
    Falabella._clean_price (some s) = some (PyFloat.finite (digitsToNat s.data)) :=
  ⟨clean_price_digits hne hd, _clean_price_digits hne hd⟩

theorem claim8_amended_witness :
    Alkosto.clean_price (some "1299900") =
      some (PyFloat.finite (digitsToNat "1299900".data)) ∧
    Falabella._clean_price (some "1299900") =
      some (PyFloat.finite (digitsToNat "1299900".data)) :=
  claim8_amended "1299900" (by decide) (by decide)

/-- C5: the selector fallback resolver.  First part: when some selector
of the strategy yields a truthy text, the result is the text of the
first such selector, whatever was accumulated before — no merging
across candidates.  Second part: when every candidate is exhausted
without a truthy result, the resolver's result is falsy (Python-absent:
`None` or an empty text kept from a matching element), the normal
signal consumed by the caller; being a total function it never
raises. -/
theorem claim5_resolver :
    (∀ (q : String → Option (Option String)) (pre post : List String) (sel : String)
       (t : Option String) (acc : Option String),
       (∀ s ∈ pre, Falabella.selectorHit q s = false) →
       q sel = some t → pyTruthy t = true →
       Falabella.resolveLoop q acc (pre ++ sel :: post) = t) ∧
    (∀ (q : String → Option (Option String)) (sels : List String),
       (∀ s ∈ sels, Falabella.selectorHit q s = false) →
       pyTruthy (Falabella.resolveLoop q none sels) = false) :=
  ⟨fun _ _ post _ _ acc hpre hq ht => resolveLoop_first_hit hq ht hpre post acc,
   fun _ _ h => resolveLoop_no_hit h rfl⟩

/-- Card query in which only selector `"B"` has a matching element. -/
def onlyB : String → Option (Option String) :=
  fun s => if s = "B" then some (some "hit") else none

theorem claim5_resolver_witness :
    Falabella.resolveLoop onlyB none (["A"] ++ "B" :: ["C"]) = some "hit" ∧
    pyTruthy (Falabella.resolveLoop (fun _ => none) none ["A", "B", "C"]) = false :=
  ⟨claim5_resolver.1 onlyB ["A"] ["C"] "B" (some "hit") none (by decide) (by decide)
     (by decide),
   claim5_resolver.2 (fun _ => none) ["A", "B", "C"] (by intro s _; rfl)⟩

/-- A falabella card whose current-price element carries the digit-free
text `"N/A"`: truthy, so the validity check passes, yet it normalizes
to `None`. -/
def c9card : Falabella.Card where
  link1 := some ⟨some "https://www.falabella.com.co/p9", none⟩
  link2 := none
  nameQ := fun s => if s = "b[data-testid=\"name\"]" then some (some "Phone X") else none
  priceQ := fun s => if s = "[data-testid=\"price-value\"]" then some (some "N/A") else none
  normalQ := fun _ => none

/-- C9: for a card whose raw current-price text is non-empty but
digit-free, `_extract_product_data` returns (does not discard) a
listing whose `current_price` and `normal_price` are both `None`：the
validity check tests the raw strings, not the normalized values. -/
theorem claim9_raw_price_check :
    Falabella.cardCur c9card = some "N/A" ∧
    (∀ c ∈ "N/A".data, isDigitC c = false) ∧
    Falabella._extract_product_data c9card =
      some { product_name := "Phone X", current_price := none, normal_price := none,
             product_url := some "https://www.falabella.com.co/p9" } :=
  ⟨by decide, by decide, by decide⟩

/-- C10: an alkosto card with no element matching the product-link
selector is still appended: `relative_url` defaults to `""`, which does
not start with `/`, so the listing's `product_url` is the empty string
— not a scheme-qualified absolute URL — and the card is not
discarded. -/
theorem claim10_missing_link (c : Alkosto.Card) (h : c.linkEl = none) :
    Alkosto.extract_card c =
      some { product_name := c.nameEl.getD "No disponible",
             current_price := Alkosto.clean_price c.currentPriceEl,
             normal_price := Alkosto.clean_price c.normalPriceEl,
             product_url := some "" } ∧
    urlSchemeQualified "" = false := by
  constructor
  · simp only [Alkosto.extract_card, h]
  · decide

/-- An alkosto card with a name but no link element. -/
def c10card : Alkosto.Card := ⟨some "Phone Z", none, none, none⟩

theorem claim10_witness :
    Alkosto.extract_card c10card =
      some { product_name := "Phone Z", current_price := none, normal_price := none,
             product_url := some "" } ∧
    urlSchemeQualified "" = false :=
  claim10_missing_link c10card rfl

/-! ### Run-level helper lemmas -/

theorem scrape_alkosto_empty :
    ∀ {pages : List Alkosto.PageOutcome}, (∀ p ∈ pages, Alkosto.pageEmpty p) →
    Alkosto.scrape_alkosto pages = []
  | [], _ => rfl
  | p :: rest, h => by
      have hrest := scrape_alkosto_empty fun x hx => h x (List.mem_cons_of_mem _ hx)
      rcases h p (List.mem_cons_self p rest) with hp | hp <;> subst hp <;>
        simp [Alkosto.scrape_alkosto, Alkosto.pageListings, hrest]

theorem scrapeFrom_empty :
    ∀ {pages : List Falabella.PageOutcome} (n : Nat),
    (∀ p ∈ pages, Falabella.pageEmpty p) → Falabella.scrapeFrom n pages = []
  | [], _, _ => rfl
  | p :: rest, n, h => by
      have hrest := scrapeFrom_empty (n + 1) fun x hx => h x (List.mem_cons_of_mem _ hx)
      rcases h p (List.mem_cons_self p rest) with hp | ⟨cf, anf, hp⟩ <;> subst hp <;>
        simp [Falabella.scrapeFrom, Falabella.pageListings, hrest]

/-! ### Claims C1, C2, C4 -/

/-- An alkosto card appearing twice in a page, so the same url is
produced twice. -/
def dupCard : Alkosto.Card := ⟨some "Phone A", none, none, some ⟨some "/p1", none⟩⟩

/-- The listing `dupCard` extracts to. -/
def dupListing : Listing :=
  { product_name := "Phone A", current_price := none, normal_price := none,
    product_url := some "https://www.alkosto.com/p1" }

/-- C1, counterexample: two cards with the same url yield two listings
with the same url in the final sequence — no deduplication happens, so
the result does contain two listings sharing a `url`. -/
theorem claim1_counterexample :
    Alkosto.scrape_alkosto [Alkosto.PageOutcome.cards [dupCard, dupCard]] =
      [dupListing, dupListing] ∧
    dupListing.product_url = some "https://www.alkosto.com/p1" :=
  ⟨by decide, rfl⟩

/-- C1, amended: neither scraper deduplicates.  Every successfully
extracted candidate is appended in encounter order, so two cards whose
listings share the same url both survive into the result sequence. -/
theorem claim1_amended :
    (∀ (c1 c2 : Alkosto.Card) (l1 l2 : Listing),
       Alkosto.extract_card c1 = some l1 → Alkosto.extract_card c2 = some l2 →
       l1.product_url = l2.product_url →
       Alkosto.scrape_alkosto [Alkosto.PageOutcome.cards [c1, c2]] = [l1, l2]) ∧
    (∀ (d1 d2 : Falabella.Card) (m1 m2 : Listing),
       Falabella._extract_product_data d1 = some m1 →
       Falabella._extract_product_data d2 = some m2 →
       m1.product_url = m2.product_url →
       Falabella.scrape_falabella [Falabella.PageOutcome.loaded true false [d1, d2]] =
         [m1, m2]) := by
  constructor
  · intro c1 c2 l1 l2 h1 h2 _
    simp [Alkosto.scrape_alkosto, Alkosto.pageListings, List.filterMap_cons, h1, h2]
  · intro d1 d2 m1 m2 h1 h2 _
    simp [Falabella.scrape_falabella, Falabella.scrapeFrom, Falabella.pageListings,
          List.filterMap_cons, h1, h2]

/-- A falabella card appearing twice in a page. -/
def fdupCard : Falabella.Card where
  link1 := some ⟨some "/p1", none⟩
  link2 := none
  nameQ := fun s => if s = "h3" then some (some "Phone B") else none
  priceQ := fun s => if s = ".price" then some (some "N/A") else none
  normalQ := fun _ => none

/-- The listing `fdupCard` extracts to. -/
def fdupListing : Listing :=
  { product_name := "Phone B", current_price := none, normal_price := none,
    product_url := some "https://www.falabella.com.co/p1" }

theorem claim1_amended_witness :
    Alkosto.scrape_alkosto [Alkosto.PageOutcome.cards [dupCard, dupCard]] =
      [dupListing, dupListing] ∧
    Falabella.scrape_falabella
        [Falabella.PageOutcome.loaded true false [fdupCard, fdupCard]] =
      [fdupListing, fdupListing] :=
  ⟨claim1_amended.1 dupCard dupCard dupListing dupListing (by decide) (by decide) rfl,
   claim1_amended.2 fdupCard fdupCard fdupListing fdupListing (by decide) (by decide) rfl⟩

/-- An alkosto card for which every query came back empty. -/
def bareCard : Alkosto.Card := ⟨none, none, none, none⟩

/-- C2, counterexample: alkosto appends a listing that violates every
part of the ProductListing invariant — sentinel name, no price at all,
and an empty (not scheme-qualified) url — instead of dropping it. -/
theorem claim2_counterexample :
    Alkosto.scrape_alkosto [Alkosto.PageOutcome.cards [bareCard]] =
      [{ product_name := "No disponible", current_price := none, normal_price := none,
         product_url := some "" }] ∧
    urlSchemeQualified "" = false :=
  ⟨by decide, by decide⟩

/-- C2, amended: the full invariant is not enforced.  alkosto appends
every card whose processing raises no error (any card whose link
element, when present, carries an `href`), however invalid the
candidate; falabella drops a candidate exactly when no link element is
found, the resolved name is the sentinel, or both RAW price strings are
falsy; and a dropped falabella candidate never interrupts extraction of
the remaining cards on the page. -/
theorem claim2_amended :
    (∀ (pre post : List Falabella.Card) (c : Falabella.Card),
       Falabella._extract_product_data c = none →
       (pre ++ c :: post).filterMap Falabella._extract_product_data =
         (pre ++ post).filterMap Falabella._extract_product_data) ∧
    (∀ c : Alkosto.Card,
       (c.linkEl = none ∨ ∃ le, c.linkEl = some le ∧ le.href.isSome = true) →
       (Alkosto.extract_card c).isSome = true) ∧
    (∀ c : Falabella.Card,
       Falabella._extract_product_data c = none ↔
         (Falabella.cardLink c = none ∨
          Falabella.cardName c = "Nombre no disponible" ∨
          (pyTruthy (Falabella.cardCur c) = false ∧
           pyTruthy (Falabella.cardNor c) = false))) := by
  refine ⟨fun pre post c h => filterMap_skip _ pre post c h, ?_, extract_none_iff⟩
  intro c hc
  rcases hc with h | ⟨le, hle, hhref⟩
  · simp [Alkosto.extract_card, h]
  · rcases hx : le.href with _ | u
    · rw [hx] at hhref
      simp at hhref
    · simp [Alkosto.extract_card, hle, hx]

/-- A falabella card with no link element at all: dropped. -/
def fNoneCard : Falabella.Card :=
  ⟨none, none, fun _ => none, fun _ => none, fun _ => none⟩

theorem claim2_amended_witness :
    ([] ++ fNoneCard :: []).filterMap Falabella._extract_product_data =
      ([] ++ ([] : List Falabella.Card)).filterMap Falabella._extract_product_data ∧
    (Alkosto.extract_card bareCard).isSome = true ∧
    Falabella._extract_product_data fNoneCard = none :=
  ⟨claim2_amended.1 [] [] fNoneCard (by decide),
   claim2_amended.2.1 bareCard (Or.inl rfl),
   (claim2_amended.2.2 fNoneCard).mpr (Or.inl rfl)⟩

/-- A falabella card with a good name and a truthy price text. -/
def c4card : Falabella.Card where
  link1 := some ⟨some "/p4", none⟩
  link2 := none
  nameQ := fun s => if s = "h3" then some (some "Phone Y") else none
  priceQ := fun s => if s = ".price" then some (some "N/A") else none
  normalQ := fun _ => none

/-- C4, counterexample: in falabella a page whose readiness
(container) wait failed is NOT skipped — navigation succeeded, no
container selector became ready (`containerFound = false`), yet card
enumeration still runs and the page's cards are extracted. -/
theorem claim4_counterexample :
    Falabella.scrape_falabella [Falabella.PageOutcome.loaded false false [c4card]] =
      [{ product_name := "Phone Y", current_price := none, normal_price := none,
         product_url := some "https://www.falabella.com.co/p4" }] := by
  decide

/-- C4, amended: alkosto skips a page on navigation or readiness
failure with zero retries; falabella skips only on navigation failure
(its readiness failure is swallowed, see the counterexample).  In both
scrapers a failed page never prevents later pages from being processed,
and a run in which every page is skipped or empty returns the empty
sequence without raising. -/
theorem claim4_amended :
    (∀ rest, Alkosto.scrape_alkosto (Alkosto.PageOutcome.loadFail :: rest) =
       Alkosto.scrape_alkosto rest) ∧
    (∀ pages, (∀ p ∈ pages, Alkosto.pageEmpty p) →
       Alkosto.scrape_alkosto pages = []) ∧
    (∀ (n : Nat) rest, Falabella.scrapeFrom n (Falabella.PageOutcome.navFail :: rest) =
       Falabella.scrapeFrom (n + 1) rest) ∧
    (∀ (n : Nat) pages, (∀ p ∈ pages, Falabella.pageEmpty p) →
       Falabella.scrapeFrom n pages = []) := by
  refine ⟨?_, fun _ h => scrape_alkosto_empty h, ?_, fun n _ h => scrapeFrom_empty n h⟩
  · intro rest
    simp [Alkosto.scrape_alkosto, Alkosto.pageListings]
  · intro n rest
    simp [Falabella.scrapeFrom, Falabella.pageListings]

theorem claim4_amended_witness :
    Alkosto.scrape_alkosto [Alkosto.PageOutcome.loadFail] =
      Alkosto.scrape_alkosto [] ∧
    Alkosto.scrape_alkosto
        [Alkosto.PageOutcome.loadFail, Alkosto.PageOutcome.cards []] = [] ∧
    Falabella.scrapeFrom 1 [Falabella.PageOutcome.navFail] =
      Falabella.scrapeFrom 2 [] ∧
    Falabella.scrapeFrom 1 [Falabella.PageOutcome.navFail] = [] :=
  ⟨claim4_amended.1 [],
   claim4_amended.2.1 _ (by
     intro p hp
     rcases List.mem_cons.mp hp with rfl | hp
     · exact Or.inl rfl
     · rw [List.mem_singleton] at hp
       subst hp
       exact Or.inr rfl),
   claim4_amended.2.2.1 1 [],
   claim4_amended.2.2.2 1 [Falabella.PageOutcome.navFail] (by
     intro p hp
     rw [List.mem_singleton] at hp
     subst hp
     exact Or.inl rfl)⟩
